import Mathlib

/-!
Verification of the attendance session manager and leave ledger of the
Pay-PRO backend.  Times are modelled as integer milliseconds measured from
the start (local midnight) of the calendar day a request falls on, matching
the JavaScript `Date.getTime()` arithmetic of `attendanceController.js`
relative to `getDayStart`.  Dates in the leave ledger are likewise integer
milliseconds; midnight-aligned dates are multiples of `msPerDay`.
-/

namespace PayPro

abbrev Millis := Int

def msPerMinute : Millis := 60000

def msPerDay : Millis := 86400000

/-- Office timing configuration of `attendanceController.js`. -/
def OFFICE_START_HOUR : Int := 9

def OFFICE_START_MINUTE : Int := 30

def OFFICE_END_HOUR : Int := 18

def OFFICE_END_MINUTE : Int := 30

def MIN_PRESENT_MINUTES : Int := 270

/-- `getOfficeStart`, as an offset from the day start. -/
def officeStart : Millis := (OFFICE_START_HOUR * 60 + OFFICE_START_MINUTE) * msPerMinute

/-- `getOfficeEnd`, as an offset from the day start. -/
def officeEnd : Millis := (OFFICE_END_HOUR * 60 + OFFICE_END_MINUTE) * msPerMinute

/-- Midpoint of the office window used by `isAfterHalfOfOfficeTime`:
`start + (end - start) / 2` (the duration is even, so the division is exact). -/
def halfPoint : Millis := officeStart + (officeEnd - officeStart) / 2

/-- `isAfterHalfOfOfficeTime` of the controller. -/
def isAfterHalfOfOfficeTime (now : Millis) : Bool := now > halfPoint

/-- `computeWorkedMinutes` of the controller: zero when either timestamp is
missing, otherwise the whole-minute floor of the difference, floored at 0. -/
def computeWorkedMinutes : Option Millis → Option Millis → Int
  | some checkIn, some checkOut => max 0 ((checkOut - checkIn).fdiv msPerMinute)
  | _, _ => 0

/-- The `status` enum of the Attendance schema. -/
inductive AttStatus
  | present
  | absent
  | halfDay
  | leave
  | holiday
  | weekend
deriving DecidableEq, Repr

/-- The `sessionStatus` enum written by the controller. -/
inductive SessionStatus
  | idle
  | active
  | completed
  | autoStopped
deriving DecidableEq, Repr

/-- An attendance document as the controller manipulates it in memory.
`sessionStatus` is an `Option` because a freshly loaded document may lack
the field entirely (see the schema-path analysis below). -/
structure AttendanceRecord where
  employee : Nat
  date : Int
  checkIn : Option Millis := none
  checkOut : Option Millis := none
  status : AttStatus := .present
  sessionStatus : Option SessionStatus := none
  punchInImageUrl : Option String := none
  punchOutImageUrl : Option String := none
  checkInLocation : Option String := none
  checkOutLocation : Option String := none
deriving DecidableEq, Repr

/-- The error responses of `markAttendance`, one constructor per
`res.status(4xx/5xx)` branch. -/
inductive AttendanceError
  | employeeNotFound
  | holidayToday
  | weekendToday
  | punchInImageRequired
  | alreadyCheckedIn
  | officeTimeEnded
  | midShiftPassed
  | punchInUploadFailed (err : String)
  | needCheckInFirst
  | punchOutImageRequired
  | punchOutWindowClosed
  | punchOutUploadFailed (err : String)
  | alreadyCheckedOut
deriving DecidableEq, Repr

/-- The spec's error taxonomy (section 7) sorts the controller's rejection
branches into kinds; these are the branches it calls `PreconditionFailed`
(weekend/holiday, window closed). -/
def AttendanceError.isPreconditionFailed : AttendanceError → Bool
  | .holidayToday => true
  | .weekendToday => true
  | .officeTimeEnded => true
  | .midShiftPassed => true
  | .punchOutWindowClosed => true
  | _ => false

inductive MarkOutcome
  | checkedIn (r : AttendanceRecord)
  | checkedOut (r : AttendanceRecord)
  | punchOutImagePatched (r : AttendanceRecord)
  | failed (e : AttendanceError)
deriving DecidableEq, Repr

/-- The record the check-in branch writes: created fresh when no document
exists for the day, otherwise the found document updated in place. -/
def checkinRecord (att : Option AttendanceRecord) (employee : Nat) (today : Int)
    (now : Millis) (url : String) (location : Option String) : AttendanceRecord :=
  match att with
  | none =>
      { employee := employee
        date := today
        checkIn := some now
        status := .absent
        sessionStatus := some .active
        punchInImageUrl := some url
        checkInLocation := location }
  | some a =>
      { a with
        checkIn := some now
        status := .absent
        sessionStatus := some .active
        punchInImageUrl := some url
        checkInLocation := location }

/-- The `type === "checkin"` branch of `markAttendance`, guards in source
order: holiday, weekend, punch-in image, already checked in, office end,
mid-shift, evidence upload. -/
def markCheckin (isHoliday isWeekend : Bool) (att : Option AttendanceRecord)
    (employee : Nat) (today : Int) (now : Millis) (hasImage : Bool)
    (upload : Except String String) (location : Option String) : MarkOutcome :=
  if isHoliday then .failed .holidayToday
  else if isWeekend then .failed .weekendToday
  else if !hasImage then .failed .punchInImageRequired
  else if att.any fun a => a.checkIn.isSome then .failed .alreadyCheckedIn
  else if now > officeEnd then .failed .officeTimeEnded
  else if isAfterHalfOfOfficeTime now then .failed .midShiftPassed
  else
    match upload with
    | .error e => .failed (.punchInUploadFailed e)
    | .ok url => .checkedIn (checkinRecord att employee today now url location)

/-- The `type === "checkout"` branch of `markAttendance`.  When `checkOut`
is already set the handler either patches a missing punch-out image (until
end of day) or reports "already checked out"; otherwise it records the
checkout clamped to office end and computes the final status. -/
def markCheckout (isHoliday isWeekend : Bool) (att : Option AttendanceRecord)
    (now : Millis) (hasImage : Bool) (upload : Except String String)
    (location : Option String) : MarkOutcome :=
  if isHoliday then .failed .holidayToday
  else if isWeekend then .failed .weekendToday
  else
    match att with
    | none => .failed .needCheckInFirst
    | some a =>
      if a.checkIn.isNone then .failed .needCheckInFirst
      else if a.checkOut.isSome then
        if a.punchOutImageUrl.isNone then
          if !hasImage then .failed .punchOutImageRequired
          else if now > msPerDay - 1 then .failed .punchOutWindowClosed
          else
            match upload with
            | .error e => .failed (.punchOutUploadFailed e)
            | .ok url => .punchOutImagePatched { a with punchOutImageUrl := some url }
        else .failed .alreadyCheckedOut
      else if !hasImage then .failed .punchOutImageRequired
      else
        match upload with
        | .error e => .failed (.punchOutUploadFailed e)
        | .ok url =>
          let actualCheckout := if now > officeEnd then officeEnd else now
          let workedMinutes := computeWorkedMinutes a.checkIn (some actualCheckout)
          .checkedOut { a with
            checkOut := some actualCheckout
            checkOutLocation := location
            punchOutImageUrl := some url
            status := if workedMinutes ≥ MIN_PRESENT_MINUTES then .present else .absent
            sessionStatus := some (if now > officeEnd then .autoStopped else .completed) }

/-- The lazy auto-stop reconciliation of `getTodayAttendance`: a record with
`checkIn` set, `checkOut` unset and `now` past office end gets a synthetic
checkout at office end; anything else is returned untouched. -/
def autoStopReconcile (att : Option AttendanceRecord) (now : Millis) :
    Option AttendanceRecord :=
  match att with
  | none => none
  | some a =>
    if a.checkIn.isSome ∧ a.checkOut.isNone ∧ now > officeEnd then
      some { a with
        checkOut := some officeEnd
        status :=
          if computeWorkedMinutes a.checkIn (some officeEnd) ≥ MIN_PRESENT_MINUTES
          then .present else .absent
        sessionStatus := some .autoStopped }
    else some a

/-! ## Attendance store and the per-day uniqueness invariant

The storage layer is modelled as a list of documents; the compound unique
index on `(employee, date)` makes each check-in step atomic with respect to
the lookup, so any interleaving of concurrent attempts is a sequence of
these steps. -/

def attKeyMatches (employee : Nat) (day : Int) (r : AttendanceRecord) : Bool :=
  r.employee == employee && r.date == day

/-- `Attendance.findOne` over the day range `[today, today + 24h)`. -/
def findToday (store : List AttendanceRecord) (employee : Nat) (day : Int) :
    Option AttendanceRecord :=
  store.find? (attKeyMatches employee day)

/-- One inbound check-in request together with the collaborator answers it
is resolved against (holiday calendar, weekend rule, evidence store). -/
structure CheckinReq where
  employee : Nat
  day : Int
  now : Millis
  hasImage : Bool
  upload : Except String String
  location : Option String
  isHoliday : Bool
  isWeekend : Bool

/-- One atomic check-in against the store: find the day's document, run the
handler, and persist the result (insert when the document is new, update in
place otherwise).  Failures leave the store untouched. -/
def checkinStep (store : List AttendanceRecord) (q : CheckinReq) :
    MarkOutcome × List AttendanceRecord :=
  let att := findToday store q.employee q.day
  match markCheckin q.isHoliday q.isWeekend att q.employee q.day q.now q.hasImage
      q.upload q.location with
  | .checkedIn r =>
    ( .checkedIn r,
      match att with
      | none => store ++ [r]
      | some _ => store.map fun x => if attKeyMatches q.employee q.day x then r else x )
  | out => (out, store)

/-- At most one attendance document per `(employee, date)` pair. -/
def uniquePerDay (store : List AttendanceRecord) : Prop :=
  store.Pairwise fun a b => (a.employee, a.date) ≠ (b.employee, b.date)

/-- Any serialization of check-in attempts, applied in order. -/
def runCheckins (store : List AttendanceRecord) (qs : List CheckinReq) :
    List AttendanceRecord :=
  qs.foldl (fun s q => (checkinStep s q).2) store

/-! ## The Attendance schema's top-level paths

In `models/Attendance.js` the keys `punchInImageUrl`, `punchOutImageUrl` and
`sessionStatus` appear inside the definition object of the `checkOut` field
(which already has a `type`), so Mongoose reads them as unknown SchemaType
options of the `checkOut` path, not as paths of their own; under the default
strict mode a save persists only schema paths. -/

inductive AttField
  | employee
  | date
  | checkIn
  | checkOut
  | status
  | workingHours
  | overtimeHours
  | breakDuration
  | location
  | ipAddress
  | remarks
  | approvedBy
  | isLateEntry
  | isEarlyExit
  | leaveReference
  | punchInImageUrl
  | punchOutImageUrl
  | sessionStatus
deriving DecidableEq, Repr

/-- The top-level paths the schema object actually declares, in source
order. -/
def attendanceSchemaPaths : List AttField :=
  [.employee, .date, .checkIn, .checkOut, .status, .workingHours,
   .overtimeHours, .breakDuration, .location, .ipAddress, .remarks,
   .approvedBy, .isLateEntry, .isEarlyExit, .leaveReference]

def isSchemaPath (f : AttField) : Bool := attendanceSchemaPaths.contains f

/-- Strict-mode persistence of one optional field: kept only when its name
is a schema path. -/
def persistOpt {α : Type} (f : AttField) (v : Option α) : Option α :=
  if isSchemaPath f then v else none

/-- What a save followed by a fresh load yields: every field the handlers
assign, filtered through the schema's top-level paths. -/
def persistAttendance (r : AttendanceRecord) : AttendanceRecord :=
  { r with
    checkIn := persistOpt .checkIn r.checkIn
    checkOut := persistOpt .checkOut r.checkOut
    punchInImageUrl := persistOpt .punchInImageUrl r.punchInImageUrl
    punchOutImageUrl := persistOpt .punchOutImageUrl r.punchOutImageUrl
    sessionStatus := persistOpt .sessionStatus r.sessionStatus
    checkInLocation := persistOpt .location r.checkInLocation
    checkOutLocation := persistOpt .location r.checkOutLocation }

/-! ## Leave ledger -/

/-- The `type` enum of the Leave schema. -/
inductive LeaveType
  | casual
  | sick
  | earned
  | unpaid
  | maternity
  | paternity
  | bereavement
  | emergency
deriving DecidableEq, Repr

/-- The `status` enum of the Leave schema. -/
inductive LeaveStatus
  | pending
  | approved
  | rejected
  | cancelled
deriving DecidableEq, Repr

/-- A leave application document (the fields the core logic touches).
`totalDays` is an `Option` because it is a schema path a document may lack:
`Leave.create` in `applyLeave` does not supply it. -/
structure LeaveApp where
  employee : Nat
  type : LeaveType
  fromDate : Millis
  toDate : Millis
  totalDays : Option ℚ := none
  status : LeaveStatus := .pending
  isHalfDay : Bool := false
  approvedBy : Option Nat := none
  approvedDate : Option Millis := none
  rejectionReason : Option String := none
  comments : Option String := none
deriving DecidableEq, Repr

/-- `Math.ceil` division for a positive divisor, as JavaScript computes
`Math.ceil(a / b)`. -/
def ceilDiv (a b : Int) : Int := -((-a).fdiv b)

/-- `dateUtils.getDaysDifference`: `Math.ceil(|date2 - date1| / msPerDay)`. -/
def getDaysDifference (date1 date2 : Millis) : Int :=
  ceilDiv |date2 - date1| msPerDay

/-- The `pre('save')` hook of the Leave schema: `daysDiff` counts both
endpoints via ceiling division; a half day only when the range spans exactly
one day. -/
def preSaveTotalDays (isHalfDay : Bool) (fromDate toDate : Millis) : ℚ :=
  let daysDiff : Int := ceilDiv (toDate - fromDate) msPerDay + 1
  if isHalfDay ∧ daysDiff = 1 then 1 / 2 else (daysDiff : ℚ)

/-- `Leave.checkLeaveConflict`: the same employee's Pending/Approved
applications whose `[fromDate, toDate]` overlaps the requested range. -/
def checkLeaveConflict (apps : List LeaveApp) (employee : Nat)
    (fromDate toDate : Millis) : List LeaveApp :=
  apps.filter fun a =>
    decide (a.employee = employee
      ∧ (a.status = .pending ∨ a.status = .approved)
      ∧ a.fromDate ≤ toDate ∧ a.toDate ≥ fromDate)

/-- The aggregation inside `Leave.getLeaveBalance`: total days of the
employee's Approved applications of one type whose `fromDate` falls inside
the current year's bounds. -/
def leaveUsed (apps : List LeaveApp) (employee : Nat) (t : LeaveType)
    (yearStart yearEnd : Millis) : ℚ :=
  (apps.filter fun a =>
    decide (a.employee = employee ∧ a.status = .approved
      ∧ yearStart ≤ a.fromDate ∧ a.fromDate ≤ yearEnd ∧ a.type = t)).foldr
    (fun a s => a.totalDays.getD 0 + s) 0

structure BalanceEntry where
  allocated : ℚ
  used : ℚ
  remaining : ℚ
deriving DecidableEq, Repr

/-- `Leave.getLeaveBalance` restricted to one type: present exactly when the
employee's `leaveBalance` map allocates that type, with
`remaining = allocated - used` (not clamped). -/
def getLeaveBalance (alloc : LeaveType → Option ℚ) (apps : List LeaveApp)
    (employee : Nat) (yearStart yearEnd : Millis) (t : LeaveType) :
    Option BalanceEntry :=
  (alloc t).map fun a =>
    let u := leaveUsed apps employee t yearStart yearEnd
    ⟨a, u, a - u⟩

/-- The error responses of the leave controller, one constructor per
rejection branch. -/
inductive LeaveError
  | overlapConflict
  | insufficientBalance (t : LeaveType)
  | exceedsBalance (requested remaining : ℚ)
  | toDateBeforeFromDate
  | totalDaysRequired
  | totalDaysBelowMin
  | reviewAlreadyProcessed
  | cancelAlreadyProcessed
  | cancelAlreadyStarted
deriving DecidableEq, Repr

/-- `save()` on a Leave document.  Mongoose registers validation as a
built-in `pre('save')` hook that runs before every user-defined
`pre('save')` hook, so the schema validators — `toDate ≥ fromDate`,
`totalDays` required, `totalDays ≥ 0.5` — see the document as handed to
`save`; only a document that passes them reaches the user hook, which then
recomputes `totalDays` (writes made there bypass validation) before the
document persists. -/
def saveLeave (lv : LeaveApp) : Except LeaveError LeaveApp :=
  if lv.toDate < lv.fromDate then .error .toDateBeforeFromDate
  else
    match lv.totalDays with
    | none => .error .totalDaysRequired
    | some v =>
      if v < 1 / 2 then .error .totalDaysBelowMin
      else .ok { lv with
        totalDays := some (preSaveTotalDays lv.isHalfDay lv.fromDate lv.toDate) }

/-- `applyLeave`: conflict check, then the two balance guards (both skipped
when the employee's allocation map has no entry for the type; the second
also skipped for Unpaid), then `Leave.create` — a save of a Pending
document to which the controller passes no `totalDays`, so the required
validator rejects it before the `pre('save')` hook could compute one. -/
def applyLeave (apps : List LeaveApp) (employee : Nat) (t : LeaveType)
    (fromDate toDate : Millis) (isHalfDay : Bool)
    (alloc : LeaveType → Option ℚ) (yearStart yearEnd : Millis) :
    Except LeaveError LeaveApp :=
  if checkLeaveConflict apps employee fromDate toDate ≠ [] then
    .error .overlapConflict
  else
    let newApp : LeaveApp :=
      { employee := employee
        type := t
        fromDate := fromDate
        toDate := toDate
        isHalfDay := isHalfDay
        status := .pending }
    match getLeaveBalance alloc apps employee yearStart yearEnd t with
    | some b =>
      if b.remaining ≤ 0 then .error (.insufficientBalance t)
      else
        let totalDays : ℚ :=
          if isHalfDay then 1 / 2 else (getDaysDifference fromDate toDate : ℚ) + 1
        if t ≠ .unpaid ∧ totalDays > b.remaining then
          .error (.exceedsBalance totalDays b.remaining)
        else saveLeave newApp
    | none => saveLeave newApp

/-- `updateLeaveStatus`: legal only from Pending; records the reviewer and
the review time, and copies the note fields the decision uses. -/
def updateLeaveStatus (lv : LeaveApp) (decision : LeaveStatus) (reviewer : Nat)
    (now : Millis) (comments rejectionReason : Option String) :
    Except LeaveError LeaveApp :=
  if lv.status ≠ .pending then .error .reviewAlreadyProcessed
  else
    let base : LeaveApp :=
      { lv with
        status := decision
        approvedBy := some reviewer
        approvedDate := some now }
    if decision = .approved then .ok { base with comments := comments }
    else if decision = .rejected then
      .ok { base with
        rejectionReason := rejectionReason
        comments := comments }
    else .ok base

/-- `cancelLeave` (after the ownership check): Rejected/Cancelled are
already processed, a leave whose `fromDate` has arrived has already
started, anything else becomes Cancelled. -/
def cancelLeave (lv : LeaveApp) (now : Millis) : Except LeaveError LeaveApp :=
  if lv.status = .rejected ∨ lv.status = .cancelled then
    .error .cancelAlreadyProcessed
  else if now ≥ lv.fromDate then .error .cancelAlreadyStarted
  else .ok { lv with status := .cancelled }

/-! ## Sample values used by the concrete witnesses -/

def exUrl : String := "https://cdn.example.test/evidence.jpg"

def t0930 : Millis := officeStart

def t1330 : Millis := (13 * 60 + 30) * msPerMinute

def t1400 : Millis := 14 * 60 * msPerMinute

def t1359 : Millis := (13 * 60 + 59) * msPerMinute

def t1401 : Millis := (14 * 60 + 1) * msPerMinute

def ex0930 : AttendanceRecord :=
  { employee := 1
    date := 0
    checkIn := some t0930
    status := .absent
    sessionStatus := some .active }

/-! ## C2: normal checkout -/

/-- C2: for a normal checkout (checkIn set, checkOut unset, evidence
provided) the recorded checkout equals `min(now, officeEnd)`, the final
status is Present exactly when the worked minutes reach the 270-minute
threshold, and the session is completed when `now ≤ officeEnd` and
auto-stopped when `now > officeEnd`; worked minutes are the floored,
non-negative minute difference. -/
theorem checkout_normal (a : AttendanceRecord) (ci now : Millis) (url : String)
    (loc : Option String) (h1 : a.checkIn = some ci) (h2 : a.checkOut = none) :
    ∃ r, markCheckout false false (some a) now true (.ok url) loc = .checkedOut r
      ∧ r.checkOut = some (min now officeEnd)
      ∧ r.status = (if MIN_PRESENT_MINUTES ≤
            computeWorkedMinutes (some ci) (some (min now officeEnd))
          then .present else .absent)
      ∧ computeWorkedMinutes (some ci) (some (min now officeEnd)) =
          max 0 ((min now officeEnd - ci).fdiv msPerMinute)
      ∧ (now ≤ officeEnd → r.sessionStatus = some .completed)
      ∧ (officeEnd < now → r.sessionStatus = some .autoStopped) := by
  obtain ⟨emp, date, aci, aco, st, ss, piu, pou, cil, col⟩ := a
  cases h1
  cases h2
  have hmin : (if now > officeEnd then officeEnd else now) = min now officeEnd := by
    rcases le_or_lt now officeEnd with h | h
    · rw [if_neg (not_lt.mpr h), min_eq_left h]
    · rw [if_pos h, min_eq_right h.le]
  refine ⟨_, rfl, ?_, ?_, rfl, ?_, ?_⟩
  · simpa using congrArg some hmin
  · simp only [hmin, ge_iff_le]
  · intro h
    simp only [if_neg (not_lt.mpr h)]
  · intro h
    simp only [if_pos h]

/-- C2 witness: checking out at 14:00 after a 09:30 check-in records 270
worked minutes and Present; at 13:30 it records 240 minutes and Absent. -/
theorem checkout_normal_witness :
    (∃ r, markCheckout false false (some ex0930) t1400 true (.ok exUrl) none =
        .checkedOut r ∧ r.checkOut = some t1400 ∧ r.status = AttStatus.present)
    ∧ (∃ r, markCheckout false false (some ex0930) t1330 true (.ok exUrl) none =
        .checkedOut r ∧ r.checkOut = some t1330 ∧ r.status = AttStatus.absent)
    ∧ computeWorkedMinutes (some t0930) (some t1400) = 270
    ∧ computeWorkedMinutes (some t0930) (some t1330) = 240 := by
  have e1 : min t1400 officeEnd = t1400 := by decide
  have e2 : min t1330 officeEnd = t1330 := by decide
  refine ⟨?_, ?_, by decide, by decide⟩
  · obtain ⟨r, hr, hco, hst, _, _, _⟩ :=
      checkout_normal ex0930 t0930 t1400 exUrl none rfl rfl
    rw [e1] at hco hst
    exact ⟨r, hr, hco, by rw [hst]; decide⟩
  · obtain ⟨r, hr, hco, hst, _, _, _⟩ :=
      checkout_normal ex0930 t0930 t1330 exUrl none rfl rfl
    rw [e2] at hco hst
    exact ⟨r, hr, hco, by rw [hst]; decide⟩

def t2000 : Millis := 20 * 60 * msPerMinute

def t2359 : Millis := (23 * 60 + 59) * msPerMinute

/-! ## C3: half-shift check-in cutoff -/

/-- C3: on a weekday non-holiday with no prior check-in, a check-in at or
before the office-day midpoint succeeds, and one strictly after the
midpoint fails with a PreconditionFailed-kind rejection. -/
theorem checkin_midpoint_cutoff (att : Option AttendanceRecord) (employee : Nat)
    (today : Int) (now : Millis) (url : String) (loc : Option String)
    (hatt : ∀ a, att = some a → a.checkIn = none) :
    (now ≤ halfPoint →
      ∃ r, markCheckin false false att employee today now true (.ok url) loc =
          .checkedIn r ∧ r.checkIn = some now ∧ r.sessionStatus = some .active)
    ∧ (halfPoint < now →
      ∃ e, markCheckin false false att employee today now true (.ok url) loc =
          .failed e ∧ e.isPreconditionFailed = true) := by
  have hany : (att.any fun a => a.checkIn.isSome) = false := by
    cases att with
    | none => rfl
    | some a => simp [hatt a rfl]
  constructor
  · intro h
    have hoe : ¬(now > officeEnd) := by
      have hho : halfPoint ≤ officeEnd := by decide
      exact not_lt.mpr (h.trans hho)
    have hmid : isAfterHalfOfOfficeTime now = false := by
      simp [isAfterHalfOfOfficeTime, not_lt.mpr h]
    refine ⟨checkinRecord att employee today now url loc, ?_, ?_, ?_⟩
    · simp [markCheckin, hany, hmid, hoe]
    · cases att <;> rfl
    · cases att <;> rfl
  · intro h
    by_cases hoe : now > officeEnd
    · exact ⟨.officeTimeEnded, by simp [markCheckin, hany, hoe], rfl⟩
    · have hmid : isAfterHalfOfOfficeTime now = true := decide_eq_true h
      exact ⟨.midShiftPassed, by simp [markCheckin, hany, hmid, hoe], rfl⟩

/-- C3 witness: with office hours 09:30-18:30 the midpoint is 14:00; a
check-in at 13:59 succeeds and one at 14:01 is rejected. -/
theorem checkin_midpoint_cutoff_witness :
    (∃ r, markCheckin false false none 1 0 t1359 true (.ok exUrl) none =
        .checkedIn r ∧ r.checkIn = some t1359 ∧ r.sessionStatus = some .active)
    ∧ (∃ e, markCheckin false false none 1 0 t1401 true (.ok exUrl) none =
        .failed e ∧ e.isPreconditionFailed = true) := by
  refine ⟨?_, ?_⟩
  · exact (checkin_midpoint_cutoff none 1 0 t1359 exUrl none
      (fun a ha => by cases ha)).1 (by decide)
  · exact (checkin_midpoint_cutoff none 1 0 t1401 exUrl none
      (fun a ha => by cases ha)).2 (by decide)

/-! ## C4: lazy auto-stop reconciliation -/

/-- C4: a status query past office end on a record with checkIn set and
checkOut unset synthesizes a checkout at exactly officeEnd, computes the
final status by the normal-checkout rule (the checkout path at the same
instant produces the same checkout time, status and session status), marks
the session auto-stopped, and is idempotent: a later query returns the
reconciled record unchanged. -/
theorem autoStop_reconciliation (a : AttendanceRecord) (ci now : Millis)
    (h1 : a.checkIn = some ci) (h2 : a.checkOut = none) (h3 : officeEnd < now) :
    ∃ r, autoStopReconcile (some a) now = some r
      ∧ r.checkOut = some officeEnd
      ∧ r.status = (if MIN_PRESENT_MINUTES ≤
            computeWorkedMinutes (some ci) (some officeEnd)
          then .present else .absent)
      ∧ r.sessionStatus = some .autoStopped
      ∧ (∀ now2, autoStopReconcile (some r) now2 = some r)
      ∧ (∀ url loc, ∃ r2,
          markCheckout false false (some a) now true (.ok url) loc = .checkedOut r2
            ∧ r2.checkOut = r.checkOut ∧ r2.status = r.status
            ∧ r2.sessionStatus = r.sessionStatus) := by
  obtain ⟨emp, date, aci, aco, st, ss, piu, pou, cil, col⟩ := a
  cases h1
  cases h2
  refine ⟨_, if_pos ⟨rfl, rfl, h3⟩, rfl, rfl, rfl, ?_, ?_⟩
  · intro now2
    simp [autoStopReconcile]
  · intro url loc
    refine ⟨_, rfl, ?_, ?_, ?_⟩
    · simp [if_pos h3]
    · simp [if_pos h3]
    · simp [if_pos h3]

/-- C4 witness: a 09:30 check-in still open at 20:00 is auto-stopped at
18:30 with 540 worked minutes (Present), and a second query at 23:59 is a
no-op. -/
theorem autoStop_reconciliation_witness :
    ∃ r, autoStopReconcile (some ex0930) t2000 = some r
      ∧ r.checkOut = some officeEnd ∧ r.status = AttStatus.present
      ∧ r.sessionStatus = some .autoStopped
      ∧ autoStopReconcile (some r) t2359 = some r := by
  obtain ⟨r, h, hco, hst, hss, hid, _⟩ :=
    autoStop_reconciliation ex0930 t0930 t2000 rfl rfl (by decide)
  exact ⟨r, h, hco, by rw [hst]; decide, hss, hid t2359⟩

/-! ## C1: per-day uniqueness -/

theorem attKeyMatches_iff (emp : Nat) (day : Int) (x : AttendanceRecord) :
    attKeyMatches emp day x = true ↔ x.employee = emp ∧ x.date = day := by
  simp [attKeyMatches]

theorem markCheckin_checkedIn_shape (hol wk : Bool) (att : Option AttendanceRecord)
    (emp : Nat) (day : Int) (now : Millis) (img : Bool)
    (upl : Except String String) (loc : Option String) (r : AttendanceRecord)
    (h : markCheckin hol wk att emp day now img upl loc = .checkedIn r) :
    ∃ url, r = checkinRecord att emp day now url loc := by
  unfold markCheckin at h
  split_ifs at h
  cases upl with
  | error e => exact absurd h (by simp)
  | ok url =>
    simp only [MarkOutcome.checkedIn.injEq] at h
    exact ⟨url, h.symm⟩

theorem checkinStep_snd_unique (store : List AttendanceRecord) (q : CheckinReq)
    (h : uniquePerDay store) : uniquePerDay (checkinStep store q).2 := by
  simp only [checkinStep]
  cases hmo : markCheckin q.isHoliday q.isWeekend (findToday store q.employee q.day)
      q.employee q.day q.now q.hasImage q.upload q.location with
  | checkedIn r =>
    obtain ⟨url, rfl⟩ := markCheckin_checkedIn_shape _ _ _ _ _ _ _ _ _ _ hmo
    cases hft : findToday store q.employee q.day with
    | none =>
      have hnone := List.find?_eq_none.mp hft
      simp only [uniquePerDay, List.pairwise_append, List.pairwise_singleton]
      refine ⟨h, trivial, ?_⟩
      intro x hx y hy
      rw [List.mem_singleton] at hy
      subst hy
      intro hkey
      apply hnone x hx
      rw [attKeyMatches_iff]
      have h1 := congrArg Prod.fst hkey
      have h2 := congrArg Prod.snd hkey
      simp only [checkinRecord] at h1 h2
      exact ⟨h1, h2⟩
    | some a =>
      have ha := List.find?_some hft
      obtain ⟨hae, had⟩ := (attKeyMatches_iff _ _ _).mp ha
      simp only [uniquePerDay, List.pairwise_map]
      have hkey : ∀ x : AttendanceRecord,
          (((if attKeyMatches q.employee q.day x then
              checkinRecord (some a) q.employee q.day q.now url q.location
            else x)).employee,
           ((if attKeyMatches q.employee q.day x then
              checkinRecord (some a) q.employee q.day q.now url q.location
            else x)).date) = (x.employee, x.date) := by
        intro x
        by_cases hx : attKeyMatches q.employee q.day x = true
        · rw [if_pos hx]
          obtain ⟨hxe, hxd⟩ := (attKeyMatches_iff _ _ _).mp hx
          simp only [checkinRecord, hae, had, hxe, hxd]
        · rw [if_neg hx]
      refine h.imp ?_
      intro x y hxy
      rw [hkey x, hkey y]
      exact hxy
  | checkedOut r => simpa using h
  | punchOutImagePatched r => simpa using h
  | failed e => simpa using h

theorem runCheckins_unique (store : List AttendanceRecord) (qs : List CheckinReq)
    (h : uniquePerDay store) : uniquePerDay (runCheckins store qs) := by
  induction qs generalizing store with
  | nil => simpa [runCheckins] using h
  | cons q rest ih =>
    simp only [runCheckins, List.foldl_cons]
    have hq := checkinStep_snd_unique store q h
    simpa [runCheckins] using ih _ hq

theorem checkinStep_conflict_unchanged (store : List AttendanceRecord)
    (q : CheckinReq) (rec : AttendanceRecord)
    (hf : findToday store q.employee q.day = some rec)
    (hin : rec.checkIn.isSome = true)
    (hhol : q.isHoliday = false) (hwk : q.isWeekend = false)
    (himg : q.hasImage = true) :
    checkinStep store q = (.failed .alreadyCheckedIn, store) := by
  have hmark : markCheckin q.isHoliday q.isWeekend
      (findToday store q.employee q.day) q.employee q.day q.now q.hasImage
      q.upload q.location = .failed .alreadyCheckedIn := by
    rw [hf, hhol, hwk, himg]
    simp [markCheckin, hin]
  simp only [checkinStep]
  rw [hmark]

/-- C1: the per-(employee, day) uniqueness invariant is preserved by every
serialization of check-in attempts (the storage-level unique index makes
each attempt atomic), and an attempt against a day that already has a
record with checkIn set is rejected as the already-checked-in Conflict
with the store unchanged. -/
theorem attendance_unique_per_day (store : List AttendanceRecord)
    (qs : List CheckinReq) (q : CheckinReq) (rec : AttendanceRecord)
    (hu : uniquePerDay store)
    (hf : findToday store q.employee q.day = some rec)
    (hin : rec.checkIn.isSome = true)
    (hhol : q.isHoliday = false) (hwk : q.isWeekend = false)
    (himg : q.hasImage = true) :
    uniquePerDay (runCheckins store qs)
    ∧ checkinStep store q = (.failed .alreadyCheckedIn, store) :=
  ⟨runCheckins_unique store qs hu,
   checkinStep_conflict_unchanged store q rec hf hin hhol hwk himg⟩

def exReq : CheckinReq :=
  { employee := 1
    day := 0
    now := t1359
    hasImage := true
    upload := .ok exUrl
    location := none
    isHoliday := false
    isWeekend := false }

/-- C1 witness: with one checked-in record stored, a repeated check-in
attempt for the same employee and day is rejected and the store is
unchanged, and the invariant survives the attempt. -/
theorem attendance_unique_per_day_witness :
    uniquePerDay (runCheckins [ex0930] [exReq])
    ∧ checkinStep [ex0930] exReq = (.failed .alreadyCheckedIn, [ex0930]) :=
  attendance_unique_per_day [ex0930] [exReq] exReq ex0930
    (by simp [uniquePerDay]) rfl rfl rfl rfl rfl

/-! ## C10: fields declared inside the checkOut definition object -/

/-- C10: `punchInImageUrl`, `punchOutImageUrl` and `sessionStatus` are not
top-level schema paths (they sit inside the `checkOut` field's definition
object), so a save never persists them; a freshly loaded record whose
checkOut is set therefore always has `punchOutImageUrl` absent, the
already-checked-out Conflict branch is unreachable, and every such
checkout request lands in the late-evidence-patch branch. -/
theorem attendance_stray_schema_fields (r : AttendanceRecord) (now : Millis)
    (hasImage : Bool) (upload : Except String String) (loc : Option String)
    (hin : (persistAttendance r).checkIn.isSome = true)
    (hout : (persistAttendance r).checkOut.isSome = true) :
    isSchemaPath .punchInImageUrl = false
    ∧ isSchemaPath .punchOutImageUrl = false
    ∧ isSchemaPath .sessionStatus = false
    ∧ (persistAttendance r).punchInImageUrl = none
    ∧ (persistAttendance r).punchOutImageUrl = none
    ∧ (persistAttendance r).sessionStatus = none
    ∧ markCheckout false false (some (persistAttendance r)) now hasImage upload loc
        ≠ .failed .alreadyCheckedOut
    ∧ (markCheckout false false (some (persistAttendance r)) now hasImage upload loc
          = .failed .punchOutImageRequired
      ∨ markCheckout false false (some (persistAttendance r)) now hasImage upload loc
          = .failed .punchOutWindowClosed
      ∨ (∃ e, markCheckout false false (some (persistAttendance r)) now hasImage upload loc
          = .failed (.punchOutUploadFailed e))
      ∨ (∃ r2, markCheckout false false (some (persistAttendance r)) now hasImage upload loc
          = .punchOutImagePatched r2)) := by
  obtain ⟨emp, date, aci, aco, st, ss, piu, pou, cil, col⟩ := r
  have hin2 : aci.isSome = true := hin
  have hout2 : aco.isSome = true := hout
  obtain ⟨ci, rfl⟩ := Option.isSome_iff_exists.mp hin2
  obtain ⟨co, rfl⟩ := Option.isSome_iff_exists.mp hout2
  have hres : markCheckout false false
        (some (persistAttendance ⟨emp, date, some ci, some co, st, ss, piu, pou, cil, col⟩))
        now hasImage upload loc = .failed .punchOutImageRequired
      ∨ markCheckout false false
        (some (persistAttendance ⟨emp, date, some ci, some co, st, ss, piu, pou, cil, col⟩))
        now hasImage upload loc = .failed .punchOutWindowClosed
      ∨ (∃ e, markCheckout false false
        (some (persistAttendance ⟨emp, date, some ci, some co, st, ss, piu, pou, cil, col⟩))
        now hasImage upload loc = .failed (.punchOutUploadFailed e))
      ∨ (∃ r2, markCheckout false false
        (some (persistAttendance ⟨emp, date, some ci, some co, st, ss, piu, pou, cil, col⟩))
        now hasImage upload loc = .punchOutImagePatched r2) := by
    cases hasImage with
    | false => exact Or.inl rfl
    | true =>
      by_cases hnow : now > msPerDay - 1
      · exact Or.inr (Or.inl (by simp +decide [markCheckout, persistAttendance, persistOpt, hnow]))
      · cases upload with
        | error e =>
          exact Or.inr (Or.inr (Or.inl
            ⟨e, by simp +decide [markCheckout, persistAttendance, persistOpt, hnow]⟩))
        | ok url =>
          refine Or.inr (Or.inr (Or.inr
            ⟨{ persistAttendance
                ⟨emp, date, some ci, some co, st, ss, piu, pou, cil, col⟩ with
                punchOutImageUrl := some url }, ?_⟩))
          simp +decide [markCheckout, persistAttendance, persistOpt, hnow]
  refine ⟨rfl, rfl, rfl, rfl, rfl, rfl, ?_, hres⟩
  rcases hres with h | h | ⟨e, h⟩ | ⟨r2, h⟩ <;> rw [h] <;> simp

def exCheckedOut : AttendanceRecord :=
  { employee := 1
    date := 0
    checkIn := some t0930
    checkOut := some t1400
    status := .present
    sessionStatus := some .completed
    punchInImageUrl := some exUrl
    punchOutImageUrl := some exUrl }

/-- C10 witness: a fully checked-out record comes back from storage with no
punch-out image, and a further checkout request without an image gets the
image-required response of the patch branch, never the already-checked-out
Conflict. -/
theorem attendance_stray_schema_fields_witness :
    (persistAttendance exCheckedOut).punchOutImageUrl = none
    ∧ (persistAttendance exCheckedOut).sessionStatus = none
    ∧ markCheckout false false (some (persistAttendance exCheckedOut)) t2000 false
        (.ok exUrl) none = .failed .punchOutImageRequired
    ∧ markCheckout false false (some (persistAttendance exCheckedOut)) t2000 false
        (.ok exUrl) none ≠ .failed .alreadyCheckedOut := by
  obtain ⟨-, -, -, -, hpou, hss, hne, -⟩ :=
    attendance_stray_schema_fields exCheckedOut t2000 false (.ok exUrl) none rfl rfl
  exact ⟨hpou, hss, rfl, hne⟩

/-! ## Sample leave-ledger values -/

def dayMs (n : Int) : Millis := n * msPerDay

/-- The default allocation map of the Employee schema's `leaveBalance`. -/
def exAlloc : LeaveType → Option ℚ
  | .casual => some 12
  | .sick => some 12
  | .earned => some 15
  | .unpaid => some 0
  | _ => none

def exApproved : LeaveApp :=
  { employee := 1
    type := .casual
    fromDate := dayMs 10
    toDate := dayMs 12
    totalDays := some 3
    status := .approved }

def ex5day : LeaveApp :=
  { employee := 1
    type := .casual
    fromDate := dayMs 20
    toDate := dayMs 24
    totalDays := some 5
    status := .approved }

def exPending : LeaveApp :=
  { employee := 2
    type := .sick
    fromDate := dayMs 40
    toDate := dayMs 41
    totalDays := some 2
    status := .pending }

/-- A save of a document with no `totalDays` dies on the required
validator (or on the `toDate` validator first), never reaching the
`pre('save')` hook. -/
theorem saveLeave_none (lv : LeaveApp) (h : lv.totalDays = none) :
    saveLeave lv = (if lv.toDate < lv.fromDate then .error .toDateBeforeFromDate
      else .error .totalDaysRequired) := by
  simp only [saveLeave, h]

/-- Reduction of `applyLeave` when the conflict list is empty and the
allocation map has an entry for the requested type. -/
theorem applyLeave_eq_of_balance (apps : List LeaveApp) (emp : Nat) (t : LeaveType)
    (fd td : Millis) (hd : Bool) (alloc : LeaveType → Option ℚ) (ys ye : Millis)
    (b : BalanceEntry)
    (hc : checkLeaveConflict apps emp fd td = [])
    (hb : getLeaveBalance alloc apps emp ys ye t = some b) :
    applyLeave apps emp t fd td hd alloc ys ye =
      (if b.remaining ≤ 0 then .error (.insufficientBalance t)
       else if t ≠ .unpaid ∧
           (if hd then (1 : ℚ) / 2 else (getDaysDifference fd td : ℚ) + 1) > b.remaining then
         .error (.exceedsBalance
           (if hd then (1 : ℚ) / 2 else (getDaysDifference fd td : ℚ) + 1) b.remaining)
       else saveLeave { employee := emp
                        type := t
                        fromDate := fd
                        toDate := td
                        status := .pending
                        isHalfDay := hd }) := by
  simp only [applyLeave]
  rw [if_neg (by simp [hc]), hb]

/-! ## C5: overlap conflict detection -/

/-- C5: a leave application fails with the overlap Conflict exactly when
some existing Pending/Approved application of the same employee satisfies
`existing.fromDate ≤ newToDate` and `existing.toDate ≥ newFromDate`. -/
theorem applyLeave_conflict_iff (apps : List LeaveApp) (emp : Nat) (t : LeaveType)
    (fd td : Millis) (hd : Bool) (alloc : LeaveType → Option ℚ) (ys ye : Millis) :
    applyLeave apps emp t fd td hd alloc ys ye = .error .overlapConflict
      ↔ ∃ a ∈ apps, a.employee = emp ∧ (a.status = .pending ∨ a.status = .approved)
          ∧ a.fromDate ≤ td ∧ a.toDate ≥ fd := by
  constructor
  · intro h
    by_cases hc : checkLeaveConflict apps emp fd td = []
    · exfalso
      simp only [applyLeave] at h
      rw [if_neg (by simp [hc])] at h
      split at h
      · repeat' split at h
        all_goals try simp at h
        all_goals rw [saveLeave_none _ rfl] at h
        all_goals split at h <;> simp at h
      · rw [saveLeave_none _ rfl] at h
        split at h <;> simp at h
    · obtain ⟨a, ha⟩ := List.exists_mem_of_ne_nil _ hc
      rw [checkLeaveConflict, List.mem_filter] at ha
      refine ⟨a, ha.1, ?_⟩
      simpa using ha.2
  · rintro ⟨a, ha, h1, h2, h3, h4⟩
    have hc : checkLeaveConflict apps emp fd td ≠ [] := by
      intro hnil
      have hall := List.filter_eq_nil_iff.mp hnil a ha
      simp [h1, h2, h3, h4] at hall
    simp only [applyLeave]
    rw [if_pos hc]

/-- C5 failing-input evaluation: against an Approved leave over days
10..12, an application for days 11..13 is rejected with the overlap
Conflict; one for days 13..14 passes the conflict and balance checks but is
never accepted — `Leave.create` rejects it because the required `totalDays`
is validated before the `pre('save')` hook that would compute it. -/
theorem applyLeave_conflict_iff_witness :
    applyLeave [exApproved] 1 .casual (dayMs 11) (dayMs 13) false exAlloc
      (dayMs 0) (dayMs 365) = .error .overlapConflict
    ∧ applyLeave [exApproved] 1 .casual (dayMs 13) (dayMs 14) false exAlloc
      (dayMs 0) (dayMs 365) = .error .totalDaysRequired := by
  constructor
  · exact (applyLeave_conflict_iff [exApproved] 1 .casual (dayMs 11) (dayMs 13)
      false exAlloc (dayMs 0) (dayMs 365)).mpr
      ⟨exApproved, by simp, rfl, Or.inr rfl, by decide, by decide⟩
  · have hb : getLeaveBalance exAlloc [exApproved] 1 (dayMs 0) (dayMs 365) .casual
        = some ⟨12, 3, 9⟩ := by
      simp [getLeaveBalance, exAlloc, leaveUsed, exApproved, dayMs, msPerDay]
      norm_num
    have hdd : getDaysDifference (dayMs 13) (dayMs 14) = 1 := by decide
    rw [applyLeave_eq_of_balance [exApproved] 1 .casual (dayMs 13) (dayMs 14) false
      exAlloc (dayMs 0) (dayMs 365) ⟨12, 3, 9⟩ (by decide) hb]
    rw [if_neg (by norm_num), if_neg (by rw [hdd]; rintro ⟨-, hlt⟩; norm_num at hlt)]
    rw [saveLeave_none _ rfl, if_neg (by decide)]

/-! ## C6: balance ceiling -/

/-- C6: with an allocation for the requested type, `remaining` is
`allocated - used` (not clamped); the application fails when
`remaining ≤ 0`, fails with the requested and remaining amounts when the
request exceeds the remainder for a non-Unpaid type, and otherwise the
balance check passes: the outcome is never a balance error, and the
request proceeds to creation (which then rejects on the missing required
`totalDays`). -/
theorem applyLeave_balance_ceiling (apps : List LeaveApp) (emp : Nat)
    (t : LeaveType) (fd td : Millis) (hd : Bool) (alloc : LeaveType → Option ℚ)
    (ys ye : Millis) (a : ℚ)
    (halloc : alloc t = some a)
    (hconf : checkLeaveConflict apps emp fd td = []) :
    (a - leaveUsed apps emp t ys ye ≤ 0 →
      applyLeave apps emp t fd td hd alloc ys ye = .error (.insufficientBalance t))
    ∧ (0 < a - leaveUsed apps emp t ys ye → t ≠ .unpaid →
        a - leaveUsed apps emp t ys ye <
          (if hd then (1 : ℚ) / 2 else (getDaysDifference fd td : ℚ) + 1) →
        applyLeave apps emp t fd td hd alloc ys ye =
          .error (.exceedsBalance
            (if hd then (1 : ℚ) / 2 else (getDaysDifference fd td : ℚ) + 1)
            (a - leaveUsed apps emp t ys ye)))
    ∧ (0 < a - leaveUsed apps emp t ys ye →
        (t = .unpaid ∨ (if hd then (1 : ℚ) / 2 else (getDaysDifference fd td : ℚ) + 1)
            ≤ a - leaveUsed apps emp t ys ye) →
        (∀ t2, applyLeave apps emp t fd td hd alloc ys ye ≠
            .error (.insufficientBalance t2))
        ∧ (∀ q r, applyLeave apps emp t fd td hd alloc ys ye ≠
            .error (.exceedsBalance q r))
        ∧ (fd ≤ td → applyLeave apps emp t fd td hd alloc ys ye =
            .error .totalDaysRequired)) := by
  have hb : getLeaveBalance alloc apps emp ys ye t =
      some ⟨a, leaveUsed apps emp t ys ye, a - leaveUsed apps emp t ys ye⟩ := by
    simp [getLeaveBalance, halloc]
  have hred := applyLeave_eq_of_balance apps emp t fd td hd alloc ys ye _ hconf hb
  refine ⟨?_, ?_, ?_⟩
  · intro h
    rw [hred, if_pos h]
  · intro h0 ht hlt
    rw [hred, if_neg (not_le.mpr h0), if_pos ⟨ht, hlt⟩]
  · intro h0 hor
    have hstep : applyLeave apps emp t fd td hd alloc ys ye =
        saveLeave { employee := emp
                    type := t
                    fromDate := fd
                    toDate := td
                    status := .pending
                    isHalfDay := hd } := by
      rw [hred, if_neg (not_le.mpr h0), if_neg ?_]
      rintro ⟨hne, hgt⟩
      rcases hor with h | h
      · exact hne h
      · exact absurd hgt (not_lt.mpr h)
    refine ⟨?_, ?_, ?_⟩
    · intro t2
      rw [hstep, saveLeave_none _ rfl]
      split <;> simp
    · intro q r
      rw [hstep, saveLeave_none _ rfl]
      split <;> simp
    · intro hle
      rw [hstep, saveLeave_none _ rfl, if_neg (not_lt.mpr hle)]

/-- C6 witness: allocated casual 12 with one Approved 5-day application in
the year leaves remaining 7; a further application for 8 days is rejected
with the requested and remaining amounts. -/
theorem applyLeave_balance_ceiling_witness :
    applyLeave [ex5day] 1 .casual (dayMs 30) (dayMs 37) false exAlloc
      (dayMs 0) (dayMs 365) = .error (.exceedsBalance 8 7) := by
  have hu : leaveUsed [ex5day] 1 .casual (dayMs 0) (dayMs 365) = 5 := by
    simp [leaveUsed, ex5day, dayMs, msPerDay]
  have hdd : getDaysDifference (dayMs 30) (dayMs 37) = 7 := by decide
  have h := (applyLeave_balance_ceiling [ex5day] 1 .casual (dayMs 30) (dayMs 37)
      false exAlloc (dayMs 0) (dayMs 365) 12 rfl (by decide)).2.1
  rw [hu] at h
  norm_num [hdd] at h
  exact h (by decide)

/-! ## C7: totalDays computation (corrected) -/

theorem ceilDiv_nonneg (a b : Int) (ha : 0 ≤ a) (hb : 0 < b) : 0 ≤ ceilDiv a b := by
  rw [ceilDiv]
  rcases eq_or_lt_of_le ha with h0 | h0
  · rw [← h0]
    simp [Int.zero_fdiv]
  · have := Int.fdiv_neg' (by omega : -a < 0) hb
    omega

/-- C7 (amended): the pre-save hook computes `totalDays = 0.5` when
`isHalfDay` is set and the inclusive range spans exactly one day, and
`daysDiff = ceil(toDate - fromDate) + 1` otherwise; `totalDays ≥ 0.5`
always holds for a stored application, and `totalDays = 0.5` only when
`isHalfDay` is true AND the range spans exactly one day (a half-day flag
over a multi-day range falls through to full-day counting). -/
theorem preSaveTotalDays_spec (hd : Bool) (fd td : Millis) (h : fd ≤ td) :
    (1 / 2 : ℚ) ≤ preSaveTotalDays hd fd td
    ∧ (preSaveTotalDays hd fd td = 1 / 2 ↔
        hd = true ∧ ceilDiv (td - fd) msPerDay + 1 = 1)
    ∧ (¬(hd = true ∧ ceilDiv (td - fd) msPerDay + 1 = 1) →
        preSaveTotalDays hd fd td = ((ceilDiv (td - fd) msPerDay + 1 : Int) : ℚ))
    ∧ (∀ lv lv2, lv.isHalfDay = hd → lv.fromDate = fd → lv.toDate = td →
        saveLeave lv = .ok lv2 →
        lv2.totalDays = some (preSaveTotalDays hd fd td) ∧ lv2.isHalfDay = hd) := by
  have hdd : (1 : Int) ≤ ceilDiv (td - fd) msPerDay + 1 := by
    have := ceilDiv_nonneg (td - fd) msPerDay (sub_nonneg.mpr h) (by decide)
    omega
  have hcast : (1 : ℚ) ≤ ((ceilDiv (td - fd) msPerDay + 1 : Int) : ℚ) := by
    exact_mod_cast hdd
  refine ⟨?_, ?_, ?_, ?_⟩
  · rw [preSaveTotalDays]
    split
    · norm_num
    · exact le_trans (by norm_num) hcast
  · rw [preSaveTotalDays]
    constructor
    · intro hv
      by_contra hcon
      rw [if_neg hcon] at hv
      rw [hv] at hcast
      norm_num at hcast
    · intro hc
      rw [if_pos hc]
  · intro hc
    rw [preSaveTotalDays, if_neg hc]
  · intro lv lv2 hh hf ht hs
    simp only [saveLeave] at hs
    repeat' split at hs
    all_goals first
      | exact Except.noConfusion hs
      | (rw [← Except.ok.inj hs]
         refine ⟨?_, ?_⟩
         · show some (preSaveTotalDays lv.isHalfDay lv.fromDate lv.toDate) =
             some (preSaveTotalDays hd fd td)
           rw [hh, hf, ht]
         · show lv.isHalfDay = hd
           exact hh)

/-- C7 witness: a half-day application over a single day has
`totalDays = 0.5`. -/
theorem preSaveTotalDays_spec_witness :
    (1 / 2 : ℚ) ≤ preSaveTotalDays true 0 0
    ∧ (preSaveTotalDays true 0 0 = 1 / 2 ↔
        true = true ∧ ceilDiv (0 - 0) msPerDay + 1 = 1) := by
  have h := preSaveTotalDays_spec true 0 0 le_rfl
  exact ⟨h.1, h.2.1⟩

/-- An already-stored half-day application over a three-day range (such a
document passes validation because its `totalDays` is present). -/
def exHalfMulti : LeaveApp :=
  { employee := 3
    type := .casual
    fromDate := 0
    toDate := dayMs 2
    totalDays := some 5
    status := .approved
    isHalfDay := true }

/-- C7 counterexample: the pre-save hook computes `totalDays = 3` for an
`isHalfDay = true` document spanning three days, and a save of such a
document stores `totalDays = 3`, not `0.5` — so "totalDays = 0.5 exactly
when isHalfDay is true" fails in its right-to-left direction. -/
theorem preSaveTotalDays_halfday_counterexample :
    preSaveTotalDays true 0 (dayMs 2) = 3
    ∧ (∃ lv2, saveLeave exHalfMulti = .ok lv2
        ∧ lv2.isHalfDay = true ∧ lv2.totalDays = some 3
        ∧ lv2.totalDays ≠ some (1 / 2)) := by
  have hcd : ceilDiv (dayMs 2 - 0) msPerDay = 2 := by decide
  have hv : preSaveTotalDays true 0 (dayMs 2) = 3 := by
    simp only [preSaveTotalDays]
    rw [hcd]
    norm_num
  refine ⟨hv, ?_⟩
  have hs : saveLeave exHalfMulti = .ok { exHalfMulti with
      totalDays := some (preSaveTotalDays true 0 (dayMs 2)) } := by
    simp only [saveLeave, exHalfMulti]
    rw [if_neg (by decide), if_neg (by norm_num)]
  refine ⟨_, hs, rfl, ?_, ?_⟩
  · show some (preSaveTotalDays true 0 (dayMs 2)) = some 3
    rw [hv]
  · show some (preSaveTotalDays true 0 (dayMs 2)) ≠ some (1 / 2)
    rw [hv]
    intro hcon
    have := Option.some.inj hcon
    norm_num at this

/-! ## C8: cancellation window -/

/-- C8: cancel succeeds exactly when the status is Pending or Approved and
now is strictly before fromDate, and then changes only the status (to
Cancelled); a Rejected or Cancelled application answers already-processed,
a Pending/Approved one whose start date has arrived answers
already-started, and every failure leaves the application unchanged. -/
theorem cancelLeave_spec (lv : LeaveApp) (now : Millis) :
    ((∃ lv2, cancelLeave lv now = .ok lv2) ↔
      ((lv.status = .pending ∨ lv.status = .approved) ∧ now < lv.fromDate))
    ∧ (∀ lv2, cancelLeave lv now = .ok lv2 → lv2 = { lv with status := .cancelled })
    ∧ ((lv.status = .rejected ∨ lv.status = .cancelled) →
        cancelLeave lv now = .error .cancelAlreadyProcessed)
    ∧ ((lv.status = .pending ∨ lv.status = .approved) → lv.fromDate ≤ now →
        cancelLeave lv now = .error .cancelAlreadyStarted) := by
  refine ⟨?_, ?_, ?_, ?_⟩
  · constructor
    · rintro ⟨lv2, h2⟩
      unfold cancelLeave at h2
      split_ifs at h2 with hrc hst
      refine ⟨?_, not_le.mp hst⟩
      cases hstat : lv.status with
      | pending => exact Or.inl rfl
      | approved => exact Or.inr rfl
      | rejected => rw [hstat] at hrc; simp at hrc
      | cancelled => rw [hstat] at hrc; simp at hrc
    · rintro ⟨hpa, hlt⟩
      unfold cancelLeave
      rw [if_neg (by rintro (hx | hx) <;> rcases hpa with h2 | h2 <;> rw [h2] at hx <;>
            exact LeaveStatus.noConfusion hx),
        if_neg (not_le.mpr hlt)]
      exact ⟨_, rfl⟩
  · intro lv2 h2
    unfold cancelLeave at h2
    split_ifs at h2
    exact (Except.ok.inj h2).symm
  · intro h1
    unfold cancelLeave
    rw [if_pos h1]
  · intro hpa hle
    unfold cancelLeave
    rw [if_neg (by rintro (hx | hx) <;> rcases hpa with h2 | h2 <;> rw [h2] at hx <;>
          exact LeaveStatus.noConfusion hx),
      if_pos hle]

/-! ## C9: review transition (corrected) -/

/-- C9 counterexample: a Rejected review with no rejection reason succeeds,
so the code does not require a reason for a rejection. -/
theorem updateLeaveStatus_rejected_no_reason :
    ∃ lv2, updateLeaveStatus exPending .rejected 7 (dayMs 50) none none = .ok lv2
      ∧ lv2.status = .rejected ∧ lv2.rejectionReason = none :=
  ⟨_, rfl, rfl, rfl⟩

/-- C9 (amended): a review is legal only from Pending (anything else
answers already-processed with the application unchanged); on success it
sets the status to the decision, the reviewer and the review time, and a
Rejected decision stores whatever rejection reason was supplied — possibly
none; no reason is required. -/
theorem updateLeaveStatus_spec (lv : LeaveApp) (decision : LeaveStatus)
    (reviewer : Nat) (now : Millis) (comments reason : Option String) :
    (lv.status ≠ .pending →
      updateLeaveStatus lv decision reviewer now comments reason =
        .error .reviewAlreadyProcessed)
    ∧ (lv.status = .pending →
        ∃ lv2, updateLeaveStatus lv decision reviewer now comments reason = .ok lv2
          ∧ lv2.status = decision ∧ lv2.approvedBy = some reviewer
          ∧ lv2.approvedDate = some now
          ∧ (decision = .rejected → lv2.rejectionReason = reason)) := by
  constructor
  · intro h
    unfold updateLeaveStatus
    rw [if_pos h]
  · intro h
    unfold updateLeaveStatus
    rw [if_neg (by simp [h])]
    cases decision with
    | approved =>
      rw [if_pos rfl]
      exact ⟨_, rfl, rfl, rfl, rfl, fun hc => LeaveStatus.noConfusion hc⟩
    | rejected =>
      rw [if_neg (fun hc => LeaveStatus.noConfusion hc), if_pos rfl]
      exact ⟨_, rfl, rfl, rfl, rfl, fun _ => rfl⟩
    | pending =>
      rw [if_neg (fun hc => LeaveStatus.noConfusion hc),
        if_neg (fun hc => LeaveStatus.noConfusion hc)]
      exact ⟨_, rfl, rfl, rfl, rfl, fun hc => LeaveStatus.noConfusion hc⟩
    | cancelled =>
      rw [if_neg (fun hc => LeaveStatus.noConfusion hc),
        if_neg (fun hc => LeaveStatus.noConfusion hc)]
      exact ⟨_, rfl, rfl, rfl, rfl, fun hc => LeaveStatus.noConfusion hc⟩

end PayPro
